import Mathlib

/-!
# Verification of the indicator / resampling pipeline

Shallow embedding of the numeric kernel (`src/utils/math.ts`), the
weekly/monthly aggregation, the 15-minute re-bucketing, the resampling
error-handling skeleton and the enrichment/merge steps of `getStockData`
(`src/unnamed/part_002`, `src/services/yahoo.ts`).

Numbers are modelled by `ℚ`.  JavaScript `null` entries of the indicator
arrays are modelled by `Option`.  The one place where IEEE special values
matter (the unguarded seed division of `calculateRSI`) is modelled by the
`JsNum` type, which carries `NaN` and the two infinities with the IEEE
rules for the operations the seed expression uses.
-/

/-- Array access that yields `none` both out of range and for a stored null,
mirroring how the TS code reads `(number | null)[]` entries. -/
def entryAt {α : Type} (l : List (Option α)) (i : ℕ) : Option α :=
  (l.get? i).getD none

/-- IEEE-style value space for JavaScript numbers: `NaN`, the two infinities,
and finite values (modelled as rationals; signed zero is collapsed to `0`). -/
inductive JsNum : Type
  | nan : JsNum
  | posInf : JsNum
  | negInf : JsNum
  | num : ℚ → JsNum
deriving DecidableEq

/-- JavaScript `+` on numbers (the cases the RSI seed expression can reach). -/
def jsAdd : JsNum → JsNum → JsNum
  | .nan, _ => .nan
  | _, .nan => .nan
  | .posInf, .negInf => .nan
  | .negInf, .posInf => .nan
  | .posInf, _ => .posInf
  | _, .posInf => .posInf
  | .negInf, _ => .negInf
  | _, .negInf => .negInf
  | .num a, .num b => .num (a + b)

/-- JavaScript `-` on numbers. -/
def jsSub : JsNum → JsNum → JsNum
  | .nan, _ => .nan
  | _, .nan => .nan
  | .posInf, .posInf => .nan
  | .negInf, .negInf => .nan
  | .posInf, _ => .posInf
  | .negInf, _ => .negInf
  | .num _, .posInf => .negInf
  | .num _, .negInf => .posInf
  | .num a, .num b => .num (a - b)

/-- JavaScript `/` on numbers: `0/0 = NaN`, `x/0 = ±∞` for `x ≠ 0`. -/
def jsDiv : JsNum → JsNum → JsNum
  | .nan, _ => .nan
  | _, .nan => .nan
  | .posInf, .posInf => .nan
  | .posInf, .negInf => .nan
  | .negInf, .posInf => .nan
  | .negInf, .negInf => .nan
  | .posInf, .num b => if b < 0 then .negInf else .posInf
  | .negInf, .num b => if b < 0 then .posInf else .negInf
  | .num _, .posInf => .num 0
  | .num _, .negInf => .num 0
  | .num a, .num b =>
      if b = 0 then (if a = 0 then .nan else if 0 < a then .posInf else .negInf)
      else .num (a / b)

/-! ## Numeric kernel (`src/utils/math.ts`) -/

/-- Running-sum values of the SMA loop: seeded with the first window sum, each
step adds the incoming element and subtracts the outgoing one
(`sum += data[i] - data[i - period]`). -/
def runSums (s : ℚ) : List (ℚ × ℚ) → List ℚ
  | [] => [s]
  | (x, y) :: rest => s :: runSums (s + x - y) rest

/-- `calculateSMA` (`src/utils/math.ts` lines 3-18): all-null when the series is
shorter than the period, otherwise nulls up to index `period - 2`, then the
running-sum means. -/
def calculateSMA (data : List ℚ) (period : ℕ) : List (Option ℚ) :=
  if data.length < period then List.replicate data.length none
  else
    let pairs := (data.drop period).zip data
    let sums := runSums ((data.take period).sum) pairs
    List.replicate (period - 1) none ++ sums.map (fun s => some (s / (period : ℚ)))

/-- The EMA recurrence values starting from the seed:
`currentEma = data[i]*k + currentEma*(1-k)`. -/
def emaRun (k s : ℚ) : List ℚ → List ℚ
  | [] => [s]
  | x :: rest => s :: emaRun k (x * k + s * (1 - k)) rest

/-- `calculateEMA` (`src/utils/math.ts` lines 20-40): seeded with the SMA of the
first `period` points at index `period - 1`, then the exponential recurrence
with `k = 2/(period+1)`. -/
def calculateEMA (data : List ℚ) (period : ℕ) : List (Option ℚ) :=
  if data.length < period then List.replicate data.length none
  else
    let k := 2 / ((period : ℚ) + 1)
    let seed := (data.take period).sum / (period : ℚ)
    List.replicate (period - 1) none ++ (emaRun k seed (data.drop period)).map some

/-- Initial gain/loss totals of `calculateRSI`: simple sums of the positive and
negative parts of the first `period` consecutive differences (a difference of
exactly `0` counts as a gain, per `if (diff >= 0)`). -/
def rsiInit (closes : List ℚ) (period : ℕ) : ℚ × ℚ :=
  ((closes.zip closes.tail).take period).foldl
    (fun gl pr =>
      let diff := pr.2 - pr.1
      if 0 ≤ diff then (gl.1 + diff, gl.2) else (gl.1, gl.2 - diff))
    (0, 0)

/-- Wilder-smoothing loop of `calculateRSI` for indices `> period`.  This branch
of the source guards `avgLoss === 0` explicitly, so its values stay finite. -/
def rsiLoop (period : ℕ) : ℚ → ℚ → List (ℚ × ℚ) → List JsNum
  | _, _, [] => []
  | ag, al, (prev, cur) :: rest =>
      let diff := cur - prev
      let g := if 0 < diff then diff else 0
      let l := if diff < 0 then -diff else 0
      let ag2 := (ag * ((period : ℚ) - 1) + g) / (period : ℚ)
      let al2 := (al * ((period : ℚ) - 1) + l) / (period : ℚ)
      (if al2 = 0 then JsNum.num 100 else JsNum.num (100 - 100 / (1 + ag2 / al2))) ::
        rsiLoop period ag2 al2 rest

/-- `calculateRSI` (`src/utils/math.ts` lines 42-78).  The seed at index
`period` is the literal expression `100 - (100 / (1 + avgGain / avgLoss))`
with JavaScript division semantics — it has no `avgLoss === 0` guard, so it is
evaluated in `JsNum`. -/
def calculateRSI (closes : List ℚ) (period : ℕ) : List (Option JsNum) :=
  if closes.length < period + 1 then List.replicate closes.length none
  else
    let init := rsiInit closes period
    let avgGain := init.1 / (period : ℚ)
    let avgLoss := init.2 / (period : ℚ)
    let seed := jsSub (.num 100)
      (jsDiv (.num 100) (jsAdd (.num 1) (jsDiv (.num avgGain) (.num avgLoss))))
    let pairs := (closes.drop period).zip (closes.drop (period + 1))
    List.replicate period none ++ (seed :: rsiLoop period avgGain avgLoss pairs).map some

/-- Pointwise difference of two nullable entries (`(f !== null && s !== null) ?
f - s : null`). -/
def optSub (a b : Option ℚ) : Option ℚ :=
  match a, b with
  | some x, some y => some (x - y)
  | _, _ => none

/-- `calculateMACD` (`src/utils/math.ts` lines 80-118): the MACD line is the
pointwise difference of the fast and slow EMAs; the signal line is the EMA of
the contiguous valid suffix of the MACD line, remapped to absolute indices;
the histogram is the pointwise difference of MACD line and signal line.
`findIdx` models `findIndex(v => v !== null)` (list length plays the role of
`-1`: the guard `validStartIndex < length` is `validStartIndex !== -1`). -/
def calculateMACD (closePrices : List ℚ) (fast slow signal : ℕ) :
    List (Option ℚ) × List (Option ℚ) × List (Option ℚ) :=
  let emaFast := calculateEMA closePrices fast
  let emaSlow := calculateEMA closePrices slow
  let macdLine := List.zipWith optSub emaFast emaSlow
  let validStartIndex := macdLine.findIdx (fun v => v.isSome)
  if validStartIndex < macdLine.length then
    let validMacdValues := (macdLine.drop validStartIndex).map (fun v => v.getD 0)
    let signalLineValid := calculateEMA validMacdValues signal
    let signalLine := List.replicate validStartIndex (none : Option ℚ) ++ signalLineValid
    let histogram := List.zipWith optSub macdLine signalLine
    (macdLine, signalLine, histogram)
  else
    (macdLine, List.replicate closePrices.length none, List.replicate closePrices.length none)

/-- Minimum of a window (`Math.min(...)`); the default for the empty window is
never reached for the parallel arrays the KDJ loop slices. -/
def listMin : List ℚ → ℚ
  | [] => 0
  | x :: xs => xs.foldl min x

/-- Maximum of a window (`Math.max(...)`). -/
def listMax : List ℚ → ℚ
  | [] => 0
  | x :: xs => xs.foldl max x

/-- RSV of `calculateKDJ` at index `i`: the normalized position of the close in
the trailing `period`-window high-low range, `50` when the range is zero. -/
def rsvAt (highs lows closes : List ℚ) (period i : ℕ) : ℚ :=
  let minLow := listMin ((lows.drop (i + 1 - period)).take period)
  let maxHigh := listMax ((highs.drop (i + 1 - period)).take period)
  if maxHigh = minLow then 50
  else (closes.getD i 0 - minLow) / (maxHigh - minLow) * 100

/-- One iteration of the KDJ loop.  Outside the loop range (`i < period - 1` or
`i ≥ length`) the arrays keep their fill value `50`. -/
def kdjStep (highs lows closes : List ℚ) (period i : ℕ) (prev : ℚ × ℚ) : ℚ × ℚ :=
  if period - 1 ≤ i ∧ i < closes.length then
    let rsv := rsvAt highs lows closes period i
    let prevK := if 0 < i then prev.1 else 50
    let prevD := if 0 < i then prev.2 else 50
    let k := 2 / 3 * prevK + 1 / 3 * rsv
    let d := 2 / 3 * prevD + 1 / 3 * k
    (k, d)
  else (50, 50)

/-- The `K` and `D` arrays of `calculateKDJ` (`src/utils/math.ts` lines
120-148) as a function of the index. -/
def kdjKD (highs lows closes : List ℚ) (period : ℕ) : ℕ → ℚ × ℚ
  | 0 => kdjStep highs lows closes period 0 (50, 50)
  | i + 1 => kdjStep highs lows closes period (i + 1) (kdjKD highs lows closes period i)

/-- `K[i]` of `calculateKDJ`. -/
def kdjK (highs lows closes : List ℚ) (period i : ℕ) : ℚ :=
  (kdjKD highs lows closes period i).1

/-- `D[i]` of `calculateKDJ`. -/
def kdjD (highs lows closes : List ℚ) (period i : ℕ) : ℚ :=
  (kdjKD highs lows closes period i).2

/-- `J[i]` of `calculateKDJ`: written by the loop as `3*K[i] - 2*D[i]`, and the
fill value `50` outside the loop range. -/
def kdjJ (highs lows closes : List ℚ) (period i : ℕ) : ℚ :=
  if period - 1 ≤ i ∧ i < closes.length then
    3 * kdjK highs lows closes period i - 2 * kdjD highs lows closes period i
  else 50

/-! ## Weekly/monthly aggregation (`src/unnamed/part_002` lines 295-327) -/

/-- The fields of a processed bar that the weekly/monthly merge reads and
writes (the bucket-key/date and timestamp bookkeeping is orthogonal to the
merge arithmetic and is omitted). -/
structure AggBar where
  open_ : ℚ
  high : ℚ
  low : ℚ
  close : ℚ
  volume : ℚ
  closeAdj : ℚ
  openAdj : ℚ
  highAdj : ℚ
  lowAdj : ℚ
deriving DecidableEq

/-- The merge of one subsequent bar into an existing weekly/monthly bucket:
first-open wins, high/low extend, close is the incoming close, volume is
summed exactly when the incoming open differs from the bucket open by more
than `0.0001`, and the adjusted quadruple is recomputed from the incoming
bar's `closeAdj/close` ratio. -/
def mergeBucket (existing item : AggBar) : AggBar :=
  let ratio := if item.close ≠ 0 then item.closeAdj / item.close else 1
  let isSeparateFragment := 1 / 10000 < |item.open_ - existing.open_|
  { open_ := existing.open_
    high := max existing.high item.high
    low := min existing.low item.low
    close := item.close
    volume := if isSeparateFragment then existing.volume + item.volume else item.volume
    closeAdj := item.closeAdj
    openAdj := existing.open_ * ratio
    highAdj := max existing.high item.high * ratio
    lowAdj := min existing.low item.low * ratio }

/-- A whole bucket: the first constituent bar seeds the map entry, every later
time-ordered constituent is merged by `mergeBucket`. -/
def aggregateBucket (first : AggBar) (rest : List AggBar) : AggBar :=
  rest.foldl mergeBucket first

/-! ## 15-minute re-bucketing (`src/unnamed/part_002` lines 377-425)

Timestamps are epoch seconds; Taiwan local time is UTC+8 (no DST), so the
local hour/minute of a timestamp `t` is `(t/60 + 480) % 1440` split into
hour and minute, and `setMinutes(30); setSeconds(0)` is
`(t/3600)*3600 + 1800` (whole-hour zone offsets preserve the minute-of-hour).
The bucket label `MM-DD HH:MM` is modelled at minute granularity
(`shiftedTs / 60`): two shifted stamps collide on the label exactly when they
fall in the same minute (labels carry no year, which cannot collide within
the 60-day range this interval fetches). -/

/-- First-match association-list lookup (insertion order, like a JS `Map`). -/
def lookupKey {κ β : Type} [DecidableEq κ] (k : κ) : List (κ × β) → Option β
  | [] => none
  | (k2, v) :: rest => if k2 = k then some v else lookupKey k rest

/-- The raw fields of a 15-minute bar that the re-bucketing reads: the
timestamp, the raw exchange-local hour/minute attached upstream, and the
price payload (one representative field suffices for the merge-free logic). -/
structure RawBar15 where
  ts : ℕ
  rawHour : ℕ
  rawMinute : ℕ
  close : ℚ
deriving DecidableEq

/-- The shifted timestamp: bars whose raw local time is 13:30-13:59 are forced
to minute 30 of their hour (`setMinutes(30); setSeconds(0)`), every other bar
moves forward 15 minutes. -/
def shift15Ts (b : RawBar15) : ℕ :=
  if b.rawHour = 13 ∧ 30 ≤ b.rawMinute then (b.ts / 3600) * 3600 + 1800
  else b.ts + 15 * 60

/-- Taiwan-local `(hour, minute)` of an epoch timestamp (UTC+8). -/
def taipeiHM (t : ℕ) : ℕ × ℕ :=
  let lm := (t / 60 + 8 * 60) % (24 * 60)
  (lm / 60, lm % 60)

/-- `hour * 100 + minute` of the shifted timestamp, as the filter computes. -/
def tValAt (t : ℕ) : ℕ :=
  (taipeiHM t).1 * 100 + (taipeiHM t).2

/-- The trading-window filter `!(tVal < 915 || tVal > 1330)`. -/
def keep15 (b : RawBar15) : Bool :=
  decide (915 ≤ tValAt (shift15Ts b) ∧ tValAt (shift15Ts b) ≤ 1330)

/-- The minute-granularity bucket label of a bar's shifted timestamp. -/
def label15 (b : RawBar15) : ℕ := shift15Ts b / 60

/-- The output bar stored for a kept input bar (`{...d, timestamp: shiftedTs}`). -/
def shiftedBar15 (b : RawBar15) : RawBar15 :=
  { b with ts := shift15Ts b }

/-- One pass step of the 15-minute re-bucketing: a bar outside the trading
window is dropped, a bar whose target label is already taken is discarded
(first-bar-wins), otherwise the shifted bar is recorded under its label. -/
def step15 (acc : List (ℕ × RawBar15)) (b : RawBar15) : List (ℕ × RawBar15) :=
  if keep15 b then
    if (lookupKey (label15 b) acc).isSome then acc
    else acc ++ [(label15 b, shiftedBar15 b)]
  else acc

/-- The 15-minute re-bucketing: left-to-right pass with first-bar-wins
deduplication per target label, dropping bars outside the trading window.
The output is the label-keyed map in insertion order (the final
sort-by-timestamp of the source does not change which bars survive). -/
def resample15m (bars : List RawBar15) : List (ℕ × RawBar15) :=
  bars.foldl step15 []

/-! ## Resampling error-handling skeleton (`src/unnamed/part_002` lines 294-479)

The pipeline of `getStockData` runs up to four resampling stages, selected by
the requested interval: the weekly/monthly aggregation (no `try`/`catch`
around it), then the 60-minute shift, the 15-minute shift and the daily close
correction, each of the latter three inside `try { ... } catch { keep the
previous sequence }`.  The stages are parameters here because the claim
quantifies over stages that *raise*; the `try`/`catch` layout is the part
taken from the source. -/

/-- The chart intervals that select resampling stages. -/
inductive ChartInterval : Type
  | d1 | wk1 | mo1 | m60 | m15
deriving DecidableEq

/-- A stage wrapped in `try { ... } catch { fall back to the input }`. -/
def runStep {α : Type} (step : List α → Except String (List α)) (data : List α) : List α :=
  match step data with
  | .ok out => out
  | .error _ => data

/-- The resampling portion of `getStockData`: the weekly/monthly stage runs
unguarded (its exception propagates), the three intraday stages are guarded
by `runStep`. -/
def resamplePipeline {α : Type} (interval : ChartInterval) (isTaiwanStock : Bool)
    (weeklyStep sixtyStep fifteenStep dailyStep : List α → Except String (List α))
    (data : List α) : Except String (List α) :=
  match (if interval = .wk1 ∨ interval = .mo1 then weeklyStep data else .ok data) with
  | .error e => .error e
  | .ok d1 =>
    let d2 := if interval = .m60 ∧ isTaiwanStock then runStep sixtyStep d1 else d1
    let d3 := if interval = .m15 ∧ isTaiwanStock then runStep fifteenStep d2 else d2
    let d4 :=
      if (interval = .m60 ∨ interval = .m15) ∧ isTaiwanStock then runStep dailyStep d3 else d3
    .ok d4

/-! ## Enrichment (`src/unnamed/part_002` lines 516-590, `src/services/yahoo.ts`
lines 253-285) -/

/-- The institutional-flow fields attached to every bar. -/
structure ChipFields where
  foreignBuySell : ℚ
  investmentTrustBuySell : ℚ
deriving DecidableEq

/-- The chip merge `chipMap.get(d.date) || { foreign: 0, trust: 0 }` followed
by the field attachment. -/
def attachChips (chipMap : List (String × ℚ × ℚ)) (date : String) : ChipFields :=
  let chips := (lookupKey date chipMap).getD (0, 0)
  { foreignBuySell := chips.1, investmentTrustBuySell := chips.2 }

/-- Direction of a moving average relative to its previous value.  The
source's `=== undefined` guard never fires (the SMA arrays store `null`, not
`undefined`), and JavaScript relational comparison coerces `null` to `0`, so
a missing operand participates as `0`. -/
inductive MaDir : Type
  | up | down | flat
deriving DecidableEq

/-- `getDir` of the enrichment map with the JavaScript null-coercion above. -/
def getDir (current prev : Option ℚ) : MaDir :=
  let c := current.getD 0
  let p := prev.getD 0
  if p < c then .up else if c < p then .down else .flat

/-- The bar fields that the day-over-day enrichment reads. -/
structure RawBar where
  open_ : ℚ
  close : ℚ
deriving DecidableEq

/-- The derived per-bar fields of the final enrichment map that the claims
constrain. -/
structure EnrichedBar where
  priceChange : ℚ
  priceChangePercent : ℚ
  ma5Dir : MaDir
  ma10Dir : MaDir
  ma20Dir : MaDir
  ma60Dir : MaDir
deriving DecidableEq

/-- One entry of the final enrichment map: for index `0` the previous close
falls back to the bar's own open (`i > 0 ? finalData[i-1].close : d.open`),
and every direction flag is `'flat'` at index `0`. -/
def enrichAt (bars : List RawBar) (i : ℕ) : EnrichedBar :=
  let d := bars.getD i { open_ := 0, close := 0 }
  let closes := bars.map (fun b => b.close)
  let ma5 := calculateSMA closes 5
  let ma10 := calculateSMA closes 10
  let ma20 := calculateSMA closes 20
  let ma60 := calculateSMA closes 60
  let prevClose := if 0 < i then (bars.getD (i - 1) d).close else d.open_
  let priceChange := d.close - prevClose
  { priceChange := priceChange
    priceChangePercent := priceChange / prevClose * 100
    ma5Dir := if 0 < i then getDir (entryAt ma5 i) (entryAt ma5 (i - 1)) else .flat
    ma10Dir := if 0 < i then getDir (entryAt ma10 i) (entryAt ma10 (i - 1)) else .flat
    ma20Dir := if 0 < i then getDir (entryAt ma20 i) (entryAt ma20 (i - 1)) else .flat
    ma60Dir := if 0 < i then getDir (entryAt ma60 i) (entryAt ma60 (i - 1)) else .flat }

/-- The final enrichment map (`finalData.map((d, i) => ...)`) restricted to
the derived fields. -/
def enrichDerived (bars : List RawBar) : List EnrichedBar :=
  (List.range bars.length).map (enrichAt bars)

/-- The indicator-attachment coercion `value || undefined`: `null` stays
undefined, and a computed value of exactly `0` is also turned into
`undefined`, because `0` is falsy. -/
def jsOrUndefined (v : Option ℚ) : Option ℚ :=
  match v with
  | none => none
  | some q => if q = 0 then none else some q

/-! ## Helper lemmas about list indexing -/

theorem getElem?_isSome_iff {α : Type} (l : List α) (i : ℕ) :
    (l[i]?).isSome ↔ i < l.length := by
  rw [Option.isSome_iff_ne_none]
  constructor
  · intro h; by_contra hlt; exact h (List.getElem?_eq_none (by omega))
  · intro h; simp [List.getElem?_eq_getElem h]

theorem entryAt_eq_getElem? {α : Type} (l : List (Option α)) (i : ℕ) :
    entryAt l i = (l[i]?).getD none := by
  simp [entryAt, List.get?_eq_getElem?]

theorem entryAt_replicate_none {α : Type} (n i : ℕ) :
    entryAt (List.replicate n (none : Option α)) i = none := by
  rw [entryAt_eq_getElem?, List.getElem?_replicate]
  split <;> rfl

theorem entryAt_pad_lt {α : Type} {k i : ℕ} (l : List (Option α)) (h : i < k) :
    entryAt (List.replicate k (none : Option α) ++ l) i = none := by
  rw [entryAt_eq_getElem?, List.getElem?_append_left (by simpa using h),
    List.getElem?_replicate, if_pos h]
  rfl

theorem entryAt_pad_ge {α : Type} {k i : ℕ} (l : List (Option α)) (h : k ≤ i) :
    entryAt (List.replicate k (none : Option α) ++ l) i = entryAt l (i - k) := by
  rw [entryAt_eq_getElem?, List.getElem?_append_right (by simpa using h),
    entryAt_eq_getElem?]
  simp

theorem entryAt_map_some {α : Type} (l : List α) (i : ℕ) :
    entryAt (l.map some) i = l[i]? := by
  rw [entryAt_eq_getElem?, List.getElem?_map]
  cases l[i]? <;> rfl

theorem entryAt_map_some_comp {α β : Type} (f : α → β) (l : List α) (j : ℕ) :
    entryAt (l.map (fun s => some (f s))) j = (l[j]?).map f := by
  rw [entryAt_eq_getElem?, List.getElem?_map]
  cases l[j]? <;> rfl

theorem entryAt_zipWith_optSub (l1 l2 : List (Option ℚ)) (i : ℕ) :
    entryAt (List.zipWith optSub l1 l2) i = optSub (entryAt l1 i) (entryAt l2 i) := by
  rw [entryAt_eq_getElem?, entryAt_eq_getElem?, entryAt_eq_getElem?, List.getElem?_zipWith]
  cases h1 : l1[i]? with
  | none => cases h2 : l2[i]? with
    | none => rfl
    | some b => cases b <;> rfl
  | some a => cases h2 : l2[i]? with
    | none => cases a <;> rfl
    | some b => rfl

/-! ## Structural lemmas for the numeric kernel -/

theorem length_runSums (s : ℚ) (pairs : List (ℚ × ℚ)) :
    (runSums s pairs).length = pairs.length + 1 := by
  induction pairs generalizing s with
  | nil => rfl
  | cons pr rest ih => obtain ⟨x, y⟩ := pr; simp [runSums, ih]

theorem runSums_getElem? (pairs : List (ℚ × ℚ)) (s : ℚ) (j : ℕ) :
    (runSums s pairs)[j]? =
      if j ≤ pairs.length
      then some (s + ((pairs.take j).map (fun pr => pr.1 - pr.2)).sum)
      else none := by
  induction pairs generalizing s j with
  | nil =>
      cases j with
      | zero => simp [runSums]
      | succ j => simp [runSums]
  | cons pr rest ih =>
      obtain ⟨x, y⟩ := pr
      cases j with
      | zero => simp [runSums]
      | succ j =>
          rw [show runSums s ((x, y) :: rest) = s :: runSums (s + x - y) rest from rfl,
            List.getElem?_cons_succ, ih]
          simp only [List.take_succ_cons, List.map_cons, List.sum_cons, List.length_cons,
            Nat.add_le_add_iff_right]
          split_ifs with h
          · congr 1; ring
          · rfl

theorem length_emaRun (k s : ℚ) (l : List ℚ) :
    (emaRun k s l).length = l.length + 1 := by
  induction l generalizing s with
  | nil => rfl
  | cons x rest ih => simp [emaRun, ih]

theorem length_calculateEMA (data : List ℚ) (p : ℕ) (hp : 1 ≤ p) :
    (calculateEMA data p).length = data.length := by
  unfold calculateEMA
  split_ifs with h
  · simp
  · simp only [List.length_append, List.length_replicate, List.length_map, length_emaRun,
      List.length_drop]
    omega

theorem length_calculateSMA (data : List ℚ) (p : ℕ) (hp : 1 ≤ p) :
    (calculateSMA data p).length = data.length := by
  unfold calculateSMA
  split_ifs with h
  · simp
  · simp only [List.length_append, List.length_replicate, List.length_map, length_runSums,
      List.length_zip, List.length_drop]
    omega

theorem calculateEMA_isSome (data : List ℚ) (p i : ℕ) (hp : 1 ≤ p) :
    (entryAt (calculateEMA data p) i).isSome ↔
      p ≤ data.length ∧ p - 1 ≤ i ∧ i < data.length := by
  unfold calculateEMA
  split_ifs with h
  · rw [entryAt_replicate_none]
    simp only [Option.isSome_none, Bool.false_eq_true, false_iff]
    omega
  · rcases lt_or_le i (p - 1) with hi | hi
    · rw [entryAt_pad_lt _ hi]
      simp only [Option.isSome_none, Bool.false_eq_true, false_iff]
      omega
    · rw [entryAt_pad_ge _ hi, entryAt_map_some, getElem?_isSome_iff, length_emaRun,
        List.length_drop]
      omega

/-! ## C3: SMA -/

/-- C3: for every series `s` and period `p ≥ 1`: if `len(s) < p` the SMA is an
all-undefined sequence of length `len(s)`; otherwise every index below
`p - 1` is undefined, index `p - 1` holds the arithmetic mean of the first
`p` values, and every index `i ≥ p` satisfies the running-sum recurrence
`SMA[i] = SMA[i-1] + (s[i] - s[i-p]) / p` (exactly — the model computes in
`ℚ`, so the floating tolerance of the claim is `0`). -/
theorem sma_spec (s : List ℚ) (p : ℕ) (hp : 1 ≤ p) :
    (s.length < p → calculateSMA s p = List.replicate s.length none) ∧
      (p ≤ s.length →
        (∀ i, i + 1 < p → entryAt (calculateSMA s p) i = none) ∧
          entryAt (calculateSMA s p) (p - 1) = some ((s.take p).sum / ((p : ℕ) : ℚ)) ∧
          (∀ i, p ≤ i → i < s.length →
            ∃ prev, entryAt (calculateSMA s p) (i - 1) = some prev ∧
              entryAt (calculateSMA s p) i =
                some (prev + (s.getD i 0 - s.getD (i - p) 0) / ((p : ℕ) : ℚ)))) := by
  constructor
  · intro h
    simp only [calculateSMA, if_pos h]
  · intro hlen
    have hne : ¬ s.length < p := by omega
    have hpairs : ((s.drop p).zip s).length = s.length - p := by
      simp only [List.length_zip, List.length_drop]
      omega
    refine ⟨?_, ?_, ?_⟩
    · intro i hi
      simp only [calculateSMA, if_neg hne]
      exact entryAt_pad_lt _ (by omega)
    · simp only [calculateSMA, if_neg hne]
      rw [entryAt_pad_ge _ (le_refl _), Nat.sub_self, entryAt_map_some_comp,
        runSums_getElem?, if_pos (by omega)]
      simp
    · intro i hpi hilen
      simp only [calculateSMA, if_neg hne]
      have h1 : p - 1 ≤ i - 1 := by omega
      have h2 : p - 1 ≤ i := by omega
      rw [entryAt_pad_ge _ h1, entryAt_pad_ge _ h2, entryAt_map_some_comp,
        entryAt_map_some_comp, runSums_getElem?, runSums_getElem?,
        if_pos (by omega), if_pos (by omega)]
      have e1 : i - 1 - (p - 1) = i - p := by omega
      have e2 : i - (p - 1) = (i - p) + 1 := by omega
      rw [e1, e2]
      obtain ⟨vi, hvi⟩ : ∃ a, s[i]? = some a := by
        rw [← Option.isSome_iff_exists, getElem?_isSome_iff]
        exact hilen
      obtain ⟨vp, hvp⟩ : ∃ a, s[i - p]? = some a := by
        rw [← Option.isSome_iff_exists, getElem?_isSome_iff]
        omega
      have hzip : ((s.drop p).zip s)[i - p]? = some (vi, vp) := by
        rw [List.zip_eq_zipWith, List.getElem?_zipWith, List.getElem?_drop,
          show p + (i - p) = i from by omega, hvi, hvp]
      refine ⟨_, rfl, ?_⟩
      rw [List.take_succ, hzip, List.getD_eq_getElem?_getD, List.getD_eq_getElem?_getD,
        hvi, hvp]
      simp only [Option.toList_some, List.map_append, List.sum_append, List.map_cons,
        List.map_nil, List.sum_cons, List.sum_nil, Option.getD_some, Option.map_some']
      congr 1
      ring

/-- Witness for `sma_spec` at the concrete series `[2, 4, 6]` with period `2`. -/
theorem sma_spec_witness :
    1 ≤ 2 ∧
      ((([2, 4, 6] : List ℚ).length < 2 →
          calculateSMA [2, 4, 6] 2 = List.replicate ([2, 4, 6] : List ℚ).length none) ∧
        (2 ≤ ([2, 4, 6] : List ℚ).length →
          (∀ i, i + 1 < 2 → entryAt (calculateSMA [2, 4, 6] 2) i = none) ∧
            entryAt (calculateSMA [2, 4, 6] 2) (2 - 1) =
              some ((([2, 4, 6] : List ℚ).take 2).sum / ((2 : ℕ) : ℚ)) ∧
            (∀ i, 2 ≤ i → i < ([2, 4, 6] : List ℚ).length →
              ∃ prev, entryAt (calculateSMA [2, 4, 6] 2) (i - 1) = some prev ∧
                entryAt (calculateSMA [2, 4, 6] 2) i =
                  some (prev + (([2, 4, 6] : List ℚ).getD i 0 -
                    ([2, 4, 6] : List ℚ).getD (i - 2) 0) / ((2 : ℕ) : ℚ))))) :=
  ⟨by norm_num, sma_spec [2, 4, 6] 2 (by norm_num)⟩

/-! ## C1: RSI range / division by zero -/

/-- C1 (evidence of the code bug): on the constant series of 15 equal prices
with period 14, the initial average gain and average loss are both `0`, and
the unguarded seed expression `100 - (100 / (1 + avgGain / avgLoss))` at
index `period = 14` evaluates to `NaN` under JavaScript division semantics —
not a real number in `[0, 100]`.  (Only the Wilder loop for indices
`> period` carries the `avgLoss === 0` guard.) -/
theorem rsi_seed_nan_on_flat_series :
    entryAt (calculateRSI (List.replicate 15 10) 14) 14 = some JsNum.nan ∧
      ∀ q : ℚ, entryAt (calculateRSI (List.replicate 15 10) 14) 14 ≠ some (JsNum.num q) := by
  have h : entryAt (calculateRSI (List.replicate 15 10) 14) 14 = some JsNum.nan := by
    norm_num [calculateRSI, rsiInit, rsiLoop, entryAt, jsDiv, jsAdd, jsSub, List.replicate]
  refine ⟨h, fun q hq => ?_⟩
  rw [h] at hq
  simp at hq

/-! ## C4: KDJ -/

theorem kdjKD_out_of_range (highs lows closes : List ℚ) (period i : ℕ)
    (h : ¬(period - 1 ≤ i ∧ i < closes.length)) :
    kdjKD highs lows closes period i = (50, 50) := by
  cases i with
  | zero => simp only [kdjKD, kdjStep, if_neg h]
  | succ j => simp only [kdjKD, kdjStep, if_neg h]

/-- C4: at every index of the output arrays, `J = 3K - 2D` exactly; every
index before `period - 1` holds the seed value `50` in all three arrays (a
defined value, not undefined); and whenever the trailing window's maximum
high equals its minimum low, the RSV entering the `K` recurrence is `50`. -/
theorem kdj_spec (highs lows closes : List ℚ) (period : ℕ) :
    (∀ i, i + 1 < period → i < closes.length →
        kdjK highs lows closes period i = 50 ∧ kdjD highs lows closes period i = 50 ∧
          kdjJ highs lows closes period i = 50) ∧
      (∀ i, i < closes.length →
        kdjJ highs lows closes period i =
          3 * kdjK highs lows closes period i - 2 * kdjD highs lows closes period i) ∧
      (∀ i, period - 1 ≤ i → i < closes.length →
        listMax ((highs.drop (i + 1 - period)).take period) =
          listMin ((lows.drop (i + 1 - period)).take period) →
        kdjK highs lows closes period i =
          2 / 3 * (if 0 < i then kdjK highs lows closes period (i - 1) else 50) +
            1 / 3 * 50) := by
  refine ⟨?_, ?_, ?_⟩
  · intro i h1 h2
    have hc : ¬(period - 1 ≤ i ∧ i < closes.length) := by omega
    have hkd := kdjKD_out_of_range highs lows closes period i hc
    refine ⟨?_, ?_, ?_⟩
    · rw [kdjK, hkd]
    · rw [kdjD, hkd]
    · rw [kdjJ, if_neg hc]
  · intro i hi
    by_cases hc : period - 1 ≤ i ∧ i < closes.length
    · rw [kdjJ, if_pos hc]
    · have hkd := kdjKD_out_of_range highs lows closes period i hc
      rw [kdjJ, if_neg hc, kdjK, kdjD, hkd]
      norm_num
  · intro i h1 h2 hflat
    have hc : period - 1 ≤ i ∧ i < closes.length := ⟨h1, h2⟩
    cases i with
    | zero =>
        rw [kdjK, kdjKD, kdjStep, if_pos hc]
        simp only [Nat.lt_irrefl, if_neg, ite_false, rsvAt, if_pos hflat]
    | succ j =>
        rw [kdjK, kdjKD, kdjStep, if_pos hc]
        simp only [Nat.succ_sub_one, Nat.zero_lt_succ, ite_true, rsvAt, if_pos hflat]
        rfl

/-- Witness for `kdj_spec` on the flat series `highs = lows = closes = [5, 5]`
with period `2`. -/
theorem kdj_spec_witness :
    (∀ i, i + 1 < 2 → i < ([5, 5] : List ℚ).length →
        kdjK [5, 5] [5, 5] [5, 5] 2 i = 50 ∧ kdjD [5, 5] [5, 5] [5, 5] 2 i = 50 ∧
          kdjJ [5, 5] [5, 5] [5, 5] 2 i = 50) ∧
      (∀ i, i < ([5, 5] : List ℚ).length →
        kdjJ [5, 5] [5, 5] [5, 5] 2 i =
          3 * kdjK [5, 5] [5, 5] [5, 5] 2 i - 2 * kdjD [5, 5] [5, 5] [5, 5] 2 i) ∧
      (∀ i, 2 - 1 ≤ i → i < ([5, 5] : List ℚ).length →
        listMax ((([5, 5] : List ℚ).drop (i + 1 - 2)).take 2) =
          listMin ((([5, 5] : List ℚ).drop (i + 1 - 2)).take 2) →
        kdjK [5, 5] [5, 5] [5, 5] 2 i =
          2 / 3 * (if 0 < i then kdjK [5, 5] [5, 5] [5, 5] 2 (i - 1) else 50) +
            1 / 3 * 50) :=
  kdj_spec [5, 5] [5, 5] [5, 5] 2

/-! ## C5: weekly/monthly bucket aggregation -/

theorem aggregateBucket_cons (first b : AggBar) (rest : List AggBar) :
    aggregateBucket first (b :: rest) = aggregateBucket (mergeBucket first b) rest := rfl

theorem aggregateBucket_open (first : AggBar) (rest : List AggBar) :
    (aggregateBucket first rest).open_ = first.open_ := by
  induction rest generalizing first with
  | nil => rfl
  | cons b rest ih => rw [aggregateBucket_cons, ih]; rfl

theorem aggregateBucket_high_ub (first : AggBar) (rest : List AggBar) :
    ∀ x ∈ first :: rest, x.high ≤ (aggregateBucket first rest).high := by
  induction rest generalizing first with
  | nil =>
      intro x hx
      rw [List.mem_singleton] at hx
      exact le_of_eq (by rw [hx]; rfl)
  | cons b rest ih =>
      intro x hx
      rw [aggregateBucket_cons]
      have hhead : (mergeBucket first b).high ≤ (aggregateBucket (mergeBucket first b) rest).high :=
        ih (mergeBucket first b) _ (List.mem_cons_self _ _)
      rcases List.mem_cons.mp hx with hx | hx
      · exact le_trans (by rw [hx]; exact le_max_left _ _) hhead
      · rcases List.mem_cons.mp hx with hx | hx
        · exact le_trans (by rw [hx]; exact le_max_right _ _) hhead
        · exact ih (mergeBucket first b) _ (List.mem_cons_of_mem _ hx)

theorem aggregateBucket_low_lb (first : AggBar) (rest : List AggBar) :
    ∀ x ∈ first :: rest, (aggregateBucket first rest).low ≤ x.low := by
  induction rest generalizing first with
  | nil =>
      intro x hx
      rw [List.mem_singleton] at hx
      exact le_of_eq (by rw [hx]; rfl)
  | cons b rest ih =>
      intro x hx
      rw [aggregateBucket_cons]
      have hhead : (aggregateBucket (mergeBucket first b) rest).low ≤ (mergeBucket first b).low :=
        ih (mergeBucket first b) _ (List.mem_cons_self _ _)
      rcases List.mem_cons.mp hx with hx | hx
      · exact le_trans hhead (by rw [hx]; exact min_le_left _ _)
      · rcases List.mem_cons.mp hx with hx | hx
        · exact le_trans hhead (by rw [hx]; exact min_le_right _ _)
        · exact ih (mergeBucket first b) _ (List.mem_cons_of_mem _ hx)

theorem aggregateBucket_high_mem (first : AggBar) (rest : List AggBar) :
    (aggregateBucket first rest).high ∈ (first :: rest).map (fun x => x.high) := by
  induction rest generalizing first with
  | nil => simp [aggregateBucket]
  | cons b rest ih =>
      rw [aggregateBucket_cons]
      have h := ih (mergeBucket first b)
      simp only [List.map_cons, List.mem_cons] at h ⊢
      rcases h with h | h
      · rcases max_choice first.high b.high with hm | hm
        · exact Or.inl (by rw [h]; exact hm)
        · exact Or.inr (Or.inl (by rw [h]; exact hm))
      · exact Or.inr (Or.inr h)

theorem aggregateBucket_low_mem (first : AggBar) (rest : List AggBar) :
    (aggregateBucket first rest).low ∈ (first :: rest).map (fun x => x.low) := by
  induction rest generalizing first with
  | nil => simp [aggregateBucket]
  | cons b rest ih =>
      rw [aggregateBucket_cons]
      have h := ih (mergeBucket first b)
      simp only [List.map_cons, List.mem_cons] at h ⊢
      rcases h with h | h
      · rcases min_choice first.low b.low with hm | hm
        · exact Or.inl (by rw [h]; exact hm)
        · exact Or.inr (Or.inl (by rw [h]; exact hm))
      · exact Or.inr (Or.inr h)

theorem aggregateBucket_close (first : AggBar) (rest : List AggBar) :
    (aggregateBucket first rest).close = (rest.map (fun x => x.close)).getLastD first.close := by
  induction rest generalizing first with
  | nil => rfl
  | cons b rest ih =>
      rw [aggregateBucket_cons, ih, List.map_cons, List.getLastD_cons]; rfl

/-- C5: a weekly/monthly bucket keeps the first constituent's open, its high
is an upper bound of (and equal to one of) the constituents' highs, its low a
lower bound of (and equal to one of) their lows, its close is the last
constituent's close, and merging one more bar adds that bar's volume exactly
when its open differs from the bucket's (first) open by more than `1e-4`,
replacing the volume otherwise. -/
theorem weekly_bucket_spec (first : AggBar) (rest : List AggBar) :
    (aggregateBucket first rest).open_ = first.open_ ∧
      (∀ x ∈ first :: rest, x.high ≤ (aggregateBucket first rest).high) ∧
      (aggregateBucket first rest).high ∈ (first :: rest).map (fun x => x.high) ∧
      (∀ x ∈ first :: rest, (aggregateBucket first rest).low ≤ x.low) ∧
      (aggregateBucket first rest).low ∈ (first :: rest).map (fun x => x.low) ∧
      (aggregateBucket first rest).close = (rest.map (fun x => x.close)).getLastD first.close ∧
      (∀ item : AggBar,
        (aggregateBucket first (rest ++ [item])).volume =
          if 1 / 10000 < |item.open_ - first.open_|
          then (aggregateBucket first rest).volume + item.volume
          else item.volume) := by
  refine ⟨aggregateBucket_open first rest, aggregateBucket_high_ub first rest,
    aggregateBucket_high_mem first rest, aggregateBucket_low_lb first rest,
    aggregateBucket_low_mem first rest, aggregateBucket_close first rest, ?_⟩
  intro item
  rw [aggregateBucket, List.foldl_append]
  show (mergeBucket (aggregateBucket first rest) item).volume = _
  rw [show (mergeBucket (aggregateBucket first rest) item).volume =
      if 1 / 10000 < |item.open_ - (aggregateBucket first rest).open_|
      then (aggregateBucket first rest).volume + item.volume else item.volume from rfl,
    aggregateBucket_open]

/-- Witness for `weekly_bucket_spec` on a concrete two-fragment bucket. -/
theorem weekly_bucket_spec_witness :
    (aggregateBucket ⟨10, 12, 9, 11, 1000, 11, 10, 12, 9⟩
        [⟨11, 13, 10, 12, 500, 12, 11, 13, 10⟩]).open_ = (10 : ℚ) ∧
      (∀ x ∈ [(⟨10, 12, 9, 11, 1000, 11, 10, 12, 9⟩ : AggBar),
          ⟨11, 13, 10, 12, 500, 12, 11, 13, 10⟩],
        x.high ≤ (aggregateBucket ⟨10, 12, 9, 11, 1000, 11, 10, 12, 9⟩
          [⟨11, 13, 10, 12, 500, 12, 11, 13, 10⟩]).high) ∧
      (aggregateBucket ⟨10, 12, 9, 11, 1000, 11, 10, 12, 9⟩
          [⟨11, 13, 10, 12, 500, 12, 11, 13, 10⟩]).high ∈
        ([(⟨10, 12, 9, 11, 1000, 11, 10, 12, 9⟩ : AggBar),
          ⟨11, 13, 10, 12, 500, 12, 11, 13, 10⟩].map (fun x => x.high)) ∧
      (∀ x ∈ [(⟨10, 12, 9, 11, 1000, 11, 10, 12, 9⟩ : AggBar),
          ⟨11, 13, 10, 12, 500, 12, 11, 13, 10⟩],
        (aggregateBucket ⟨10, 12, 9, 11, 1000, 11, 10, 12, 9⟩
          [⟨11, 13, 10, 12, 500, 12, 11, 13, 10⟩]).low ≤ x.low) ∧
      (aggregateBucket ⟨10, 12, 9, 11, 1000, 11, 10, 12, 9⟩
          [⟨11, 13, 10, 12, 500, 12, 11, 13, 10⟩]).low ∈
        ([(⟨10, 12, 9, 11, 1000, 11, 10, 12, 9⟩ : AggBar),
          ⟨11, 13, 10, 12, 500, 12, 11, 13, 10⟩].map (fun x => x.low)) ∧
      (aggregateBucket ⟨10, 12, 9, 11, 1000, 11, 10, 12, 9⟩
          [⟨11, 13, 10, 12, 500, 12, 11, 13, 10⟩]).close =
        ([(⟨11, 13, 10, 12, 500, 12, 11, 13, 10⟩ : AggBar)].map (fun x => x.close)).getLastD
          11 ∧
      (∀ item : AggBar,
        (aggregateBucket ⟨10, 12, 9, 11, 1000, 11, 10, 12, 9⟩
            ([⟨11, 13, 10, 12, 500, 12, 11, 13, 10⟩] ++ [item])).volume =
          if 1 / 10000 < |item.open_ - (10 : ℚ)|
          then (aggregateBucket ⟨10, 12, 9, 11, 1000, 11, 10, 12, 9⟩
            [⟨11, 13, 10, 12, 500, 12, 11, 13, 10⟩]).volume + item.volume
          else item.volume) :=
  weekly_bucket_spec ⟨10, 12, 9, 11, 1000, 11, 10, 12, 9⟩
    [⟨11, 13, 10, 12, 500, 12, 11, 13, 10⟩]

/-! ## C8: resampling failure semantics -/

/-- C8 counterexample: an error raised in the weekly/monthly aggregation stage
is not caught — the pipeline fails with the error instead of returning the
un-resampled sequence, because that stage alone has no `try`/`catch`. -/
theorem resample_weekly_error_propagates :
    resamplePipeline (α := ℚ) .wk1 true (fun _ => .error "aggregation failure")
      (fun d => .ok d) (fun d => .ok d) (fun d => .ok d) [1] =
      .error "aggregation failure" := rfl

/-- C8 (amended): errors raised in the guarded stages (60-minute, 15-minute,
daily close correction) never propagate — each guarded stage degrades to its
input sequence on error — and the pipeline returns a result whenever the
unguarded weekly/monthly stage is not selected or does not raise. -/
theorem resample_guarded_degrades {α : Type} (interval : ChartInterval) (isTW : Bool)
    (weeklyStep sixtyStep fifteenStep dailyStep : List α → Except String (List α))
    (data : List α)
    (h : interval = .wk1 ∨ interval = .mo1 → ∃ l, weeklyStep data = .ok l) :
    (∃ out, resamplePipeline interval isTW weeklyStep sixtyStep fifteenStep dailyStep data =
        .ok out) ∧
      ∀ (step : List α → Except String (List α)) (d : List α) (e : String),
        step d = .error e → runStep step d = d := by
  constructor
  · by_cases hw : interval = .wk1 ∨ interval = .mo1
    · obtain ⟨l, hl⟩ := h hw
      exact ⟨_, by simp only [resamplePipeline, if_pos hw, hl]; rfl⟩
    · exact ⟨_, by simp only [resamplePipeline, if_neg hw]; rfl⟩
  · intro step d e he
    simp [runStep, he]

/-- Witness for `resample_guarded_degrades`: a 15-minute request whose
15-minute stage raises is still answered with a result. -/
theorem resample_guarded_degrades_witness :
    ((ChartInterval.m15 = ChartInterval.wk1 ∨ ChartInterval.m15 = ChartInterval.mo1 →
        ∃ l : List ℚ, (Except.ok [1] : Except String (List ℚ)) = Except.ok l)) ∧
      ((∃ out, resamplePipeline ChartInterval.m15 true (fun d : List ℚ => Except.ok d)
          (fun d => Except.ok d) (fun _ => Except.error "shift failure")
          (fun d => Except.ok d) [1] = Except.ok out) ∧
        ∀ (step : List ℚ → Except String (List ℚ)) (d : List ℚ) (e : String),
          step d = Except.error e → runStep step d = d) :=
  ⟨fun _ => ⟨[1], rfl⟩,
    resample_guarded_degrades ChartInterval.m15 true (fun d => Except.ok d)
      (fun d => Except.ok d) (fun _ => Except.error "shift failure") (fun d => Except.ok d)
      [1] (fun _ => ⟨[1], rfl⟩)⟩

/-! ## C9: institutional-flow merge -/

/-- C9: when a bar's local calendar date has no record in the chip map, the
attached `foreignBuySell` and `investmentTrustBuySell` are exactly `0`
(defined values, never undefined), via the `|| { foreign: 0, trust: 0 }`
fallback. -/
theorem chips_absent_zero (chipMap : List (String × ℚ × ℚ)) (date : String)
    (h : lookupKey date chipMap = none) :
    (attachChips chipMap date).foreignBuySell = 0 ∧
      (attachChips chipMap date).investmentTrustBuySell = 0 := by
  constructor <;> simp [attachChips, h]

/-- Witness for `chips_absent_zero`: the empty chip map. -/
theorem chips_absent_zero_witness :
    lookupKey "2024-01-02" ([] : List (String × ℚ × ℚ)) = none ∧
      (attachChips [] "2024-01-02").foreignBuySell = 0 ∧
      (attachChips [] "2024-01-02").investmentTrustBuySell = 0 :=
  ⟨rfl, chips_absent_zero [] "2024-01-02" rfl⟩

/-! ## C10: falsy coercion of zero indicator values -/

set_option maxRecDepth 4000 in
/-- C10: the `value || undefined` attachment maps an exactly-zero indicator
value to undefined (and warm-up `null` also to undefined), so the enriched
output cannot distinguish a legitimate `0` from a warm-up gap; concretely, a
constant close series yields a MACD line value of exactly `0` at index `25`,
which the attachment turns into undefined — indistinguishable from `null`. -/
theorem zero_indicator_attached_undefined :
    (∀ v : Option ℚ, jsOrUndefined v = none ↔ v = none ∨ v = some 0) ∧
      entryAt (calculateMACD (List.replicate 26 10) 12 26 9).1 25 = some 0 ∧
      jsOrUndefined (entryAt (calculateMACD (List.replicate 26 10) 12 26 9).1 25) = none ∧
      jsOrUndefined none = none := by
  have hmacd : entryAt (calculateMACD (List.replicate 26 10) 12 26 9).1 25 = some 0 := by
    norm_num [calculateMACD, calculateEMA, emaRun, optSub, entryAt, List.replicate,
      List.findIdx_cons]
  refine ⟨?_, hmacd, ?_, rfl⟩
  · intro v
    match v with
    | none => simp [jsOrUndefined]
    | some q =>
        simp only [jsOrUndefined]
        split_ifs with hq
        · simp [hq]
        · simp [hq]
  · rw [hmacd]
    simp [jsOrUndefined]

/-! ## C6: day-over-day enrichment -/

/-- C6 counterexample: a single bar with `open = 1`, `close = 3` is enriched
with `priceChange = 2` at index `0` — the code compares index `0` against the
bar's own open (`close - open`), not `0` as the claim states. -/
theorem index0_priceChange_counterexample :
    (enrichDerived [{ open_ := 1, close := 3 }]).map (fun e => e.priceChange) = [2] ∧
      (2 : ℚ) ≠ 0 := by
  constructor
  · norm_num [enrichDerived, enrichAt, List.range_succ]
  · norm_num

/-- C6 (amended): the bar at index `0` has `priceChange = close[0] - open[0]`
(its own open-to-close move — `0` only when the bar opens where it closes)
and every moving-average direction flag equal to `'flat'`; for every index
`i > 0`, `priceChange = close[i] - close[i-1]` and `priceChangePercent =
priceChange / close[i-1] * 100`. -/
theorem enrich_derived_spec (bars : List RawBar) :
    ((enrichAt bars 0).priceChange =
        (bars.getD 0 { open_ := 0, close := 0 }).close -
          (bars.getD 0 { open_ := 0, close := 0 }).open_ ∧
      (enrichAt bars 0).ma5Dir = .flat ∧ (enrichAt bars 0).ma10Dir = .flat ∧
      (enrichAt bars 0).ma20Dir = .flat ∧ (enrichAt bars 0).ma60Dir = .flat) ∧
      (∀ i, 0 < i → i < bars.length →
        (enrichAt bars i).priceChange =
            (bars.getD i { open_ := 0, close := 0 }).close -
              (bars.getD (i - 1) { open_ := 0, close := 0 }).close ∧
          (enrichAt bars i).priceChangePercent =
            (enrichAt bars i).priceChange /
              (bars.getD (i - 1) { open_ := 0, close := 0 }).close * 100) := by
  constructor
  · refine ⟨?_, ?_, ?_, ?_, ?_⟩ <;> simp [enrichAt]
  · intro i h0 hi
    have hgetD : bars.getD (i - 1) (bars.getD i { open_ := 0, close := 0 }) =
        bars.getD (i - 1) { open_ := 0, close := 0 } := by
      simp only [List.getD_eq_getElem?_getD]
      rw [List.getElem?_eq_getElem (show i - 1 < bars.length by omega)]
      simp
    constructor
    · simp only [enrichAt, if_pos h0, hgetD]
    · simp only [enrichAt, if_pos h0, hgetD]

/-- Witness for `enrich_derived_spec` on the two-bar list
`[(open 1, close 2), (open 2, close 4)]`. -/
theorem enrich_derived_spec_witness :
    (((enrichAt [⟨1, 2⟩, ⟨2, 4⟩] 0).priceChange =
        (([⟨1, 2⟩, ⟨2, 4⟩] : List RawBar).getD 0 { open_ := 0, close := 0 }).close -
          (([⟨1, 2⟩, ⟨2, 4⟩] : List RawBar).getD 0 { open_ := 0, close := 0 }).open_ ∧
      (enrichAt [⟨1, 2⟩, ⟨2, 4⟩] 0).ma5Dir = .flat ∧
      (enrichAt [⟨1, 2⟩, ⟨2, 4⟩] 0).ma10Dir = .flat ∧
      (enrichAt [⟨1, 2⟩, ⟨2, 4⟩] 0).ma20Dir = .flat ∧
      (enrichAt [⟨1, 2⟩, ⟨2, 4⟩] 0).ma60Dir = .flat) ∧
      (∀ i, 0 < i → i < ([⟨1, 2⟩, ⟨2, 4⟩] : List RawBar).length →
        (enrichAt [⟨1, 2⟩, ⟨2, 4⟩] i).priceChange =
            (([⟨1, 2⟩, ⟨2, 4⟩] : List RawBar).getD i { open_ := 0, close := 0 }).close -
              (([⟨1, 2⟩, ⟨2, 4⟩] : List RawBar).getD (i - 1)
                { open_ := 0, close := 0 }).close ∧
          (enrichAt [⟨1, 2⟩, ⟨2, 4⟩] i).priceChangePercent =
            (enrichAt [⟨1, 2⟩, ⟨2, 4⟩] i).priceChange /
              (([⟨1, 2⟩, ⟨2, 4⟩] : List RawBar).getD (i - 1)
                { open_ := 0, close := 0 }).close * 100)) :=
  enrich_derived_spec [⟨1, 2⟩, ⟨2, 4⟩]

/-! ## C7: 15-minute re-bucketing -/

theorem lookupKey_append_single {κ β : Type} [DecidableEq κ] (k : κ) (l : List (κ × β))
    (x : κ × β) :
    lookupKey k (l ++ [x]) =
      match lookupKey k l with
      | some v => some v
      | none => if x.1 = k then some x.2 else none := by
  induction l with
  | nil =>
      obtain ⟨k2, v⟩ := x
      by_cases h : k2 = k
      · simp [lookupKey, h]
      · simp [lookupKey, h]
  | cons p rest ih =>
      obtain ⟨k2, v⟩ := p
      by_cases hp : k2 = k
      · simp [lookupKey, hp]
      · simp only [List.cons_append, lookupKey, if_neg hp]
        exact ih

theorem resample15m_fold_lookup (bars : List RawBar15) :
    ∀ (acc : List (ℕ × RawBar15)) (k : ℕ),
      lookupKey k (bars.foldl step15 acc) =
        match lookupKey k acc with
        | some v => some v
        | none => ((bars.filter keep15).find? (fun b => label15 b == k)).map shiftedBar15 := by
  induction bars with
  | nil =>
      intro acc k
      simp only [List.foldl_nil, List.filter_nil, List.find?_nil, Option.map_none']
      cases lookupKey k acc <;> rfl
  | cons b bars ih =>
      intro acc k
      rw [List.foldl_cons]
      by_cases hkeep : keep15 b = true
      · by_cases hmem : (lookupKey (label15 b) acc).isSome = true
        · have hstep : step15 acc b = acc := by
            simp [step15, hkeep, hmem]
          rw [hstep, ih acc k]
          cases hacc : lookupKey k acc with
          | some v => rfl
          | none =>
              have hlab : ¬ label15 b = k := by
                intro h
                rw [h, hacc] at hmem
                simp at hmem
              have hlabb : (label15 b == k) = false := by
                simp [hlab]
              rw [List.filter_cons, if_pos hkeep, List.find?_cons, hlabb]
        · have hstep : step15 acc b = acc ++ [(label15 b, shiftedBar15 b)] := by
            simp [step15, hkeep, hmem]
          rw [hstep, ih _ k, lookupKey_append_single]
          cases hacc : lookupKey k acc with
          | some v => rfl
          | none =>
              by_cases hlab : label15 b = k
              · have hlabb : (label15 b == k) = true := by
                  simp [hlab]
                rw [List.filter_cons, if_pos hkeep, List.find?_cons, hlabb]
                simp [hlab]
              · have hlabb : (label15 b == k) = false := by
                  simp [hlab]
                rw [List.filter_cons, if_pos hkeep, List.find?_cons, hlabb]
                simp [hlab]
      · have hkeep2 : keep15 b = false := by
          simpa using hkeep
        have hstep : step15 acc b = acc := by
          simp [step15, hkeep2]
        rw [hstep, ih acc k, List.filter_cons, hkeep2]
        simp

theorem step15_fold_window (bars : List RawBar15) :
    ∀ acc : List (ℕ × RawBar15),
      (∀ e ∈ acc, 915 ≤ tValAt e.2.ts ∧ tValAt e.2.ts ≤ 1330) →
      ∀ e ∈ bars.foldl step15 acc, 915 ≤ tValAt e.2.ts ∧ tValAt e.2.ts ≤ 1330 := by
  induction bars with
  | nil => intro acc hacc; simpa using hacc
  | cons b bars ih =>
      intro acc hacc e he
      rw [List.foldl_cons] at he
      refine ih (step15 acc b) ?_ e he
      intro e2 he2
      by_cases hkeep : keep15 b = true
      · rw [step15, if_pos hkeep] at he2
        by_cases hmem : (lookupKey (label15 b) acc).isSome = true
        · rw [if_pos hmem] at he2
          exact hacc e2 he2
        · rw [if_neg hmem] at he2
          rcases List.mem_append.mp he2 with h2 | h2
          · exact hacc e2 h2
          · have he2eq : e2 = (label15 b, shiftedBar15 b) := List.mem_singleton.mp h2
            subst he2eq
            have hk : 915 ≤ tValAt (shift15Ts b) ∧ tValAt (shift15Ts b) ≤ 1330 := by
              simpa [keep15] using hkeep
            exact hk
      · have hkeep2 : keep15 b = false := by simpa using hkeep
        rw [step15, if_neg (by simp [hkeep2])] at he2
        exact hacc e2 he2

/-- C7 (amended): the 15-minute re-bucketing (a) keys each surviving bar by
its shifted label and keeps, per label, exactly the first input bar that
passes the trading-window filter (first-bar-wins); (b) every surviving bar's
shifted Taiwan-local time lies in the 09:15-13:30 window (all others are
dropped); and (c) a bar is clamped to minute 30 of its hour exactly when its
raw local time is in hour 13 at or past minute 30, every other bar being
shifted forward by 15 minutes.  (The claim's "clamps any bar landing at or
after the final boundary" is narrowed: a bar landing past 13:30 whose raw
hour is not 13, or whose raw minute is below 30, is dropped, not clamped.) -/
theorem resample15m_spec (bars : List RawBar15) (k : ℕ) :
    lookupKey k (resample15m bars) =
        ((bars.filter keep15).find? (fun b => label15 b == k)).map shiftedBar15 ∧
      (∀ e ∈ resample15m bars, 915 ≤ tValAt e.2.ts ∧ tValAt e.2.ts ≤ 1330) ∧
      (∀ b : RawBar15,
        (b.rawHour = 13 ∧ 30 ≤ b.rawMinute →
            (shiftedBar15 b).ts = (b.ts / 3600) * 3600 + 1800) ∧
          (¬(b.rawHour = 13 ∧ 30 ≤ b.rawMinute) →
            (shiftedBar15 b).ts = b.ts + 15 * 60)) := by
  refine ⟨?_, ?_, ?_⟩
  · rw [resample15m, resample15m_fold_lookup bars [] k]
    rfl
  · exact step15_fold_window bars [] (by simp)
  · intro b
    constructor
    · intro h
      simp [shiftedBar15, shift15Ts, h]
    · intro h
      simp [shiftedBar15, shift15Ts, if_neg h]

/-- Witness for `resample15m_spec`: a single bar at raw Taiwan-local 09:00
(epoch 1704416400), shifted to the 09:15 label `28406955`. -/
theorem resample15m_spec_witness :
    lookupKey 28406955
        (resample15m [{ ts := 1704416400, rawHour := 9, rawMinute := 0, close := 1 }]) =
        ((([{ ts := 1704416400, rawHour := 9, rawMinute := 0, close := 1 }] :
            List RawBar15).filter keep15).find?
          (fun b => label15 b == 28406955)).map shiftedBar15 ∧
      (∀ e ∈ resample15m [{ ts := 1704416400, rawHour := 9, rawMinute := 0, close := 1 }],
        915 ≤ tValAt e.2.ts ∧ tValAt e.2.ts ≤ 1330) ∧
      (∀ b : RawBar15,
        (b.rawHour = 13 ∧ 30 ≤ b.rawMinute →
            (shiftedBar15 b).ts = (b.ts / 3600) * 3600 + 1800) ∧
          (¬(b.rawHour = 13 ∧ 30 ≤ b.rawMinute) →
            (shiftedBar15 b).ts = b.ts + 15 * 60)) :=
  resample15m_spec [{ ts := 1704416400, rawHour := 9, rawMinute := 0, close := 1 }] 28406955

/-- C7 counterexample: a bar whose raw Taiwan-local time is 14:00 (epoch
1704434400) lands at or after the session's final boundary — its shifted
local time is 14:15, past 13:30 — yet the operation drops it entirely (empty
output) instead of clamping it to the 13:30 boundary, because the clamp only
fires for `rawHour = 13 ∧ rawMinute ≥ 30`. -/
theorem fifteen_min_after_close_dropped :
    tValAt (shift15Ts { ts := 1704434400, rawHour := 14, rawMinute := 0, close := 1 }) =
        1415 ∧
      resample15m [{ ts := 1704434400, rawHour := 14, rawMinute := 0, close := 1 }] = [] := by
  constructor
  · norm_num [tValAt, taipeiHM, shift15Ts]
  · norm_num [resample15m, step15, keep15, tValAt, taipeiHM, shift15Ts]

/-! ## C2: MACD -/

theorem optSub_isSome (a b : Option ℚ) :
    (optSub a b).isSome ↔ a.isSome ∧ b.isSome := by
  cases a <;> cases b <;> simp [optSub]

theorem entryAt_of_length_le {α : Type} (l : List (Option α)) (i : ℕ) (h : l.length ≤ i) :
    entryAt l i = none := by
  rw [entryAt_eq_getElem?, List.getElem?_eq_none h]
  rfl

theorem getElem?_eq_some_entryAt {α : Type} (l : List (Option α)) (m : ℕ)
    (hm : m < l.length) :
    l[m]? = some (entryAt l m) := by
  rw [entryAt_eq_getElem?, List.getElem?_eq_getElem hm]
  rfl

theorem findIdx_isSome_eq {α : Type} (l : List (Option α)) (j : ℕ) (hj : j < l.length)
    (hnone : ∀ m, m < j → l[m]? = some none) (hsome : ∃ v, l[j]? = some (some v)) :
    l.findIdx (fun v => v.isSome) = j := by
  induction l generalizing j with
  | nil => simp at hj
  | cons a l ih =>
      cases j with
      | zero =>
          obtain ⟨v, hv⟩ := hsome
          rw [List.getElem?_cons_zero] at hv
          cases hv
          simp [List.findIdx_cons]
      | succ j =>
          have ha : a = none := by
            have := hnone 0 (Nat.succ_pos j)
            rw [List.getElem?_cons_zero] at this
            exact Option.some_injective _ this
          subst ha
          rw [List.findIdx_cons]
          have hrec : l.findIdx (fun v => v.isSome) = j := by
            refine ih j (by simpa using hj) (fun m hm => ?_) ?_
            · have := hnone (m + 1) (by omega)
              rwa [List.getElem?_cons_succ] at this
            · obtain ⟨v, hv⟩ := hsome
              rw [List.getElem?_cons_succ] at hv
              exact ⟨v, hv⟩
          simp [hrec]

theorem findIdx_isSome_eq_length {α : Type} (l : List (Option α))
    (hall : ∀ m, m < l.length → l[m]? = some none) :
    l.findIdx (fun v => v.isSome) = l.length := by
  induction l with
  | nil => rfl
  | cons a l ih =>
      have ha : a = none := by
        have := hall 0 (by simp)
        rw [List.getElem?_cons_zero] at this
        exact Option.some_injective _ this
      subst ha
      rw [List.findIdx_cons]
      have hrec : l.findIdx (fun v => v.isSome) = l.length := by
        refine ih (fun m hm => ?_)
        have := hall (m + 1) (by simpa using hm)
        rwa [List.getElem?_cons_succ] at this
      simp [hrec]

theorem calculateMACD_fst (data : List ℚ) (fast slow signal : ℕ) :
    (calculateMACD data fast slow signal).1 =
      List.zipWith optSub (calculateEMA data fast) (calculateEMA data slow) := by
  simp only [calculateMACD]
  split <;> rfl

theorem macdLine_length (data : List ℚ) (fast slow : ℕ) (hfast : 1 ≤ fast)
    (hfs : fast ≤ slow) :
    (List.zipWith optSub (calculateEMA data fast) (calculateEMA data slow)).length =
      data.length := by
  rw [List.length_zipWith, length_calculateEMA _ _ hfast,
    length_calculateEMA _ _ (hfast.trans hfs)]
  exact min_self _

theorem macdLine_entry_isSome (data : List ℚ) (fast slow : ℕ) (hfast : 1 ≤ fast)
    (hfs : fast ≤ slow) (i : ℕ) (hi : i < data.length) :
    (entryAt (List.zipWith optSub (calculateEMA data fast) (calculateEMA data slow)) i).isSome
      ↔ slow ≤ data.length ∧ slow - 1 ≤ i := by
  rw [entryAt_zipWith_optSub, optSub_isSome, calculateEMA_isSome _ _ _ hfast,
    calculateEMA_isSome _ _ _ (hfast.trans hfs)]
  omega

theorem macdLine_findIdx (data : List ℚ) (fast slow : ℕ) (hfast : 1 ≤ fast)
    (hfs : fast ≤ slow) (hslow : slow ≤ data.length) :
    (List.zipWith optSub (calculateEMA data fast) (calculateEMA data slow)).findIdx
      (fun v => v.isSome) = slow - 1 := by
  have hlen := macdLine_length data fast slow hfast hfs
  refine findIdx_isSome_eq _ (slow - 1) (by omega) (fun m hm => ?_) ?_
  · rw [getElem?_eq_some_entryAt _ m (by omega)]
    have hnone : entryAt (List.zipWith optSub (calculateEMA data fast)
        (calculateEMA data slow)) m = none := by
      have := macdLine_entry_isSome data fast slow hfast hfs m (by omega)
      rw [← Option.not_isSome_iff_eq_none]
      intro hs
      have := this.mp hs
      omega
    rw [hnone]
  · have hs : (entryAt (List.zipWith optSub (calculateEMA data fast)
        (calculateEMA data slow)) (slow - 1)).isSome := by
      rw [macdLine_entry_isSome data fast slow hfast hfs (slow - 1) (by omega)]
      omega
    obtain ⟨v, hv⟩ := Option.isSome_iff_exists.mp hs
    exact ⟨v, by rw [getElem?_eq_some_entryAt _ _ (by omega), hv]⟩

theorem macdLine_findIdx_short (data : List ℚ) (fast slow : ℕ) (hfast : 1 ≤ fast)
    (hfs : fast ≤ slow) (hshort : data.length < slow) :
    (List.zipWith optSub (calculateEMA data fast) (calculateEMA data slow)).findIdx
      (fun v => v.isSome) =
      (List.zipWith optSub (calculateEMA data fast) (calculateEMA data slow)).length := by
  have hlen := macdLine_length data fast slow hfast hfs
  refine findIdx_isSome_eq_length _ (fun m hm => ?_)
  rw [getElem?_eq_some_entryAt _ m hm]
  have hnone : entryAt (List.zipWith optSub (calculateEMA data fast)
      (calculateEMA data slow)) m = none := by
    have := macdLine_entry_isSome data fast slow hfast hfs m (by omega)
    rw [← Option.not_isSome_iff_eq_none]
    intro hs
    have := this.mp hs
    omega
  rw [hnone]

theorem calculateMACD_shape (data : List ℚ) (fast slow signal : ℕ) (hfast : 1 ≤ fast)
    (hfs : fast ≤ slow) (hslow : slow ≤ data.length) :
    (calculateMACD data fast slow signal).2.1 =
        List.replicate (slow - 1) (none : Option ℚ) ++
          calculateEMA
            (((List.zipWith optSub (calculateEMA data fast)
                (calculateEMA data slow)).drop (slow - 1)).map (fun v => v.getD 0)) signal ∧
      (calculateMACD data fast slow signal).2.2 =
        List.zipWith optSub
          (List.zipWith optSub (calculateEMA data fast) (calculateEMA data slow))
          (List.replicate (slow - 1) (none : Option ℚ) ++
            calculateEMA
              (((List.zipWith optSub (calculateEMA data fast)
                  (calculateEMA data slow)).drop (slow - 1)).map (fun v => v.getD 0))
              signal) := by
  have hidx := macdLine_findIdx data fast slow hfast hfs hslow
  have hlen := macdLine_length data fast slow hfast hfs
  constructor
  · simp only [calculateMACD, hidx]
    rw [if_pos (by omega)]
  · simp only [calculateMACD, hidx]
    rw [if_pos (by omega)]

theorem calculateMACD_shape_short (data : List ℚ) (fast slow signal : ℕ) (hfast : 1 ≤ fast)
    (hfs : fast ≤ slow) (hshort : data.length < slow) :
    (calculateMACD data fast slow signal).2.1 = List.replicate data.length none ∧
      (calculateMACD data fast slow signal).2.2 = List.replicate data.length none := by
  have hidx := macdLine_findIdx_short data fast slow hfast hfs hshort
  constructor
  · simp only [calculateMACD, hidx]
    rw [if_neg (by omega)]
  · simp only [calculateMACD, hidx]
    rw [if_neg (by omega)]

/-- C2: the MACD line is `EMA(fast) - EMA(slow)` pointwise, defined exactly
where both operands are (first defined index `slow - 1`, when the series is
long enough); the histogram equals MACD line minus signal line pointwise
where both are defined and is undefined elsewhere; and the signal line —
the EMA of the contiguous defined sub-sequence of the MACD line remapped to
absolute indices — is defined exactly from index
`(slow - 1) + (signal - 1) = slow + signal - 2` on, whenever enough history
exists (`len ≥ slow + signal - 1`). -/
theorem macd_spec (data : List ℚ) (fast slow signal : ℕ)
    (hfast : 1 ≤ fast) (hfs : fast ≤ slow) (hsig : 1 ≤ signal) :
    (∀ i, entryAt (calculateMACD data fast slow signal).1 i =
        optSub (entryAt (calculateEMA data fast) i) (entryAt (calculateEMA data slow) i)) ∧
      (∀ i, i < data.length →
        ((entryAt (calculateMACD data fast slow signal).1 i).isSome ↔
          slow ≤ data.length ∧ slow - 1 ≤ i)) ∧
      (∀ i, entryAt (calculateMACD data fast slow signal).2.2 i =
        optSub (entryAt (calculateMACD data fast slow signal).1 i)
          (entryAt (calculateMACD data fast slow signal).2.1 i)) ∧
      (slow + signal - 1 ≤ data.length →
        ∀ i, i < data.length →
          ((entryAt (calculateMACD data fast slow signal).2.1 i).isSome ↔
            slow + signal - 2 ≤ i)) := by
  refine ⟨?_, ?_, ?_, ?_⟩
  · intro i
    rw [calculateMACD_fst]
    exact entryAt_zipWith_optSub _ _ i
  · intro i hi
    rw [calculateMACD_fst]
    exact macdLine_entry_isSome data fast slow hfast hfs i hi
  · intro i
    rcases le_or_lt slow data.length with hslow | hshort
    · obtain ⟨h1, h2⟩ := calculateMACD_shape data fast slow signal hfast hfs hslow
      rw [h2, ← h1, calculateMACD_fst]
      exact entryAt_zipWith_optSub _ _ i
    · obtain ⟨h1, h2⟩ := calculateMACD_shape_short data fast slow signal hfast hfs hshort
      rw [h1, h2, entryAt_replicate_none, calculateMACD_fst]
      rcases lt_or_le i data.length with hi | hi
      · have hnone : entryAt (List.zipWith optSub (calculateEMA data fast)
            (calculateEMA data slow)) i = none := by
          have := macdLine_entry_isSome data fast slow hfast hfs i hi
          rw [← Option.not_isSome_iff_eq_none]
          intro hs
          have := this.mp hs
          omega
        rw [hnone]
        rfl
      · rw [entryAt_of_length_le _ i (by rw [macdLine_length data fast slow hfast hfs]; omega)]
        rfl
  · intro hC i hi
    have hslow : slow ≤ data.length := by omega
    obtain ⟨h1, _⟩ := calculateMACD_shape data fast slow signal hfast hfs hslow
    rw [h1]
    have hvalidlen : (((List.zipWith optSub (calculateEMA data fast)
        (calculateEMA data slow)).drop (slow - 1)).map (fun v => v.getD 0)).length =
        data.length - (slow - 1) := by
      rw [List.length_map, List.length_drop, macdLine_length data fast slow hfast hfs]
    rcases lt_or_le i (slow - 1) with hlt | hge
    · rw [entryAt_pad_lt _ hlt]
      simp only [Option.isSome_none, Bool.false_eq_true, false_iff]
      omega
    · rw [entryAt_pad_ge _ hge, calculateEMA_isSome _ _ _ hsig, hvalidlen]
      omega

/-- Witness for `macd_spec` on `[0, 1, 2, 3]` with `fast = 1`, `slow = 2`,
`signal = 2` (so `slow + signal - 1 = 3 ≤ 4`). -/
theorem macd_spec_witness :
    1 ≤ 1 ∧ 1 ≤ 2 ∧ 1 ≤ 2 ∧
      ((∀ i, entryAt (calculateMACD [0, 1, 2, 3] 1 2 2).1 i =
          optSub (entryAt (calculateEMA [0, 1, 2, 3] 1) i)
            (entryAt (calculateEMA [0, 1, 2, 3] 2) i)) ∧
        (∀ i, i < ([0, 1, 2, 3] : List ℚ).length →
          ((entryAt (calculateMACD [0, 1, 2, 3] 1 2 2).1 i).isSome ↔
            2 ≤ ([0, 1, 2, 3] : List ℚ).length ∧ 2 - 1 ≤ i)) ∧
        (∀ i, entryAt (calculateMACD [0, 1, 2, 3] 1 2 2).2.2 i =
          optSub (entryAt (calculateMACD [0, 1, 2, 3] 1 2 2).1 i)
            (entryAt (calculateMACD [0, 1, 2, 3] 1 2 2).2.1 i)) ∧
        (2 + 2 - 1 ≤ ([0, 1, 2, 3] : List ℚ).length →
          ∀ i, i < ([0, 1, 2, 3] : List ℚ).length →
            ((entryAt (calculateMACD [0, 1, 2, 3] 1 2 2).2.1 i).isSome ↔
              2 + 2 - 2 ≤ i))) :=
  ⟨by norm_num, by norm_num, by norm_num,
    macd_spec [0, 1, 2, 3] 1 2 2 (by norm_num) (by norm_num) (by norm_num)⟩
